import Mathlib

/-!
Shallow embedding of the STUN wire-format helpers
(`src/stun_helpers/stun.ts`, class `STUNHelpers`) and of the typed value
container (`src/stun_data_type/stun.type.ts`, class `STUNType`).

JavaScript numbers that only ever hold integers are modelled as `Int`
(inputs) or `Nat` (byte values); `Buffer` contents are modelled as
`List Nat` with every entry the value of one byte.  JavaScript bitwise
operators work on the 32-bit image of their operands, so the embedding
inserts the explicit `% 2^32` (`ToUint32`) conversions where the source
relies on them.  Assigning to a `Buffer` cell truncates the value to one
byte (`% 256`); reading `buffer[idx]` out of bounds yields `undefined`,
which the `&` operator coerces to `0`.
-/

/-- A JavaScript runtime value, as far as the helpers can observe one:
a `Buffer` (byte list), or any non-Buffer value.  `Buffer.isBuffer`
distinguishes exactly the `buffer` constructor. -/
inductive JSVal where
  | buffer (bytes : List Nat)
  | str (s : String)
  | num (n : Int)
  | null
  | undef
deriving DecidableEq

/-- `Buffer.isBuffer(v)`: true exactly on `Buffer` values. -/
def isBuffer : JSVal → Bool
  | JSVal.buffer _ => true
  | _ => false

/-- `STUNHelpers._int2Buf16(int)`:
`buf[0] = 0xFF & (int >>> 8); buf[1] = 0xFF & int;`.
`int >>> 8` converts `int` with `ToUint32` (i.e. `int mod 2^32`, the
shift count `8` is already `< 32`) and shifts right; `0xFF & x` likewise
works on the 32-bit image, and masking with `0xFF` makes the result the
low byte.  Both stores are within `0..255`, so the `Buffer` cell
truncation is the identity. -/
def _int2Buf16 (int : Int) : List Nat :=
  [0xFF &&& ((int % 4294967296).toNat >>> 8),
   0xFF &&& (int % 4294967296).toNat]

/-- `STUNHelpers._getBit(buffer, idx, off)`:
the mask lives in a one-byte buffer (`Buffer.alloc(1)`), so after
`mask[0] <<= off` the stored value is `(1 << (off % 32)) % 256`
(JavaScript `<<` reduces the shift count mod 32, the byte store reduces
mod 256).  `buffer[idx]` out of bounds is `undefined`, which `&` coerces
to `0`, hence the `getD idx 0`. -/
def _getBit (buffer : List Nat) (idx : Nat) (off : Nat) : Nat :=
  let mask : Nat := (0x01 <<< (off % 32)) % 256
  if (buffer.getD idx 0) &&& mask ≠ 0 then 1 else 0

/-- The byte-by-byte `for` loop of `STUNHelpers._compareBuf`: the first
argument is the number of iterations still to run (`a.length - i`), the
second the current index `i`.  It returns `false` on the first index
where `a[i] !== b[i]` and `true` once `i` reaches `a.length`.  (The loop
is only reached with `a.length = b.length`, so the `getD` defaults are
never used there.) -/
def bufEqGo (a b : List Nat) : Nat → Nat → Bool
  | 0, _ => true
  | n + 1, i => if a.getD i 0 ≠ b.getD i 0 then false else bufEqGo a b n (i + 1)

/-- The loop of `STUNHelpers._compareBuf` started at index `i`
(`for(let i=0; i<a.length; i+=1)` runs `a.length - i` more times). -/
def bufEqFrom (a b : List Nat) (i : Nat) : Bool :=
  bufEqGo a b (a.length - i) i

/-- `STUNHelpers._compareBuf(a, b)`: returns `false` when
`!Buffer.isBuffer(a) || !Buffer.isBuffer(b)` (the catch-all branch),
`false` on length mismatch, otherwise runs the byte-comparison loop. -/
def _compareBuf (a b : JSVal) : Bool :=
  match a, b with
  | JSVal.buffer la, JSVal.buffer lb =>
    if la.length ≠ lb.length then false
    else bufEqFrom la lb 0
  | _, _ => false

/-!
The address-string converters `_ipv4Str2Buf32` and `_ipv6Str2Buf128`
appear in `stun.ts` inside a block comment at the end of the file; they
are embedded here from that text.  Strings are handled through their
character lists (`String.data`).
-/

/-- The digit-prefix part of JavaScript `parseInt(s, 10)`: value of the
longest leading run of decimal digits, `none` (`NaN`) when it is empty. -/
def digitsVal (l : List Char) : Option Nat :=
  let ds := l.takeWhile Char.isDigit
  if ds.isEmpty then none
  else some (ds.foldl (fun acc c => acc * 10 + (c.toNat - '0'.toNat)) 0)

/-- JavaScript `parseInt(s, 10)`: skip leading whitespace, accept an
optional sign, then read the longest decimal-digit run; `none` models
`NaN`. -/
def jsParseInt10 (l : List Char) : Option Int :=
  match l.dropWhile Char.isWhitespace with
  | '-' :: rest => (digitsVal rest).map (fun n => -(n : Int))
  | '+' :: rest => (digitsVal rest).map (fun n => (n : Int))
  | rest => (digitsVal rest).map (fun n => (n : Int))

/-- The coercion `Buffer.from(array)` applies to each element: a number
is truncated to a byte (`value & 255`), `NaN` becomes `0`. -/
def jsToUint8 : Option Int → Nat
  | none => 0
  | some k => (k.emod 256).toNat

/-- JavaScript `String.prototype.split` with a one-character separator:
`"".split(sep) = [""]`, and each separator occurrence opens a new
(possibly empty) field. -/
def splitOnChar (sep : Char) : List Char → List (List Char)
  | [] => [[]]
  | c :: rest =>
    if c = sep then [] :: splitOnChar sep rest
    else
      match splitOnChar sep rest with
      | [] => [[c]]
      | g :: gs => (c :: g) :: gs

/-- `str.split(".").map((n) => parseInt(n, 10))` passed to
`Buffer.from`: one byte per dot-separated component. -/
def ipv4Bytes (l : List Char) : List Nat :=
  (splitOnChar '.' l).map (fun n => jsToUint8 (jsParseInt10 n))

/-- `STUNHelpers._ipv4Str2Buf32(str)` (from the commented-out source):
`Buffer.from(str.split(".").map((n) => parseInt(n, 10)))`. -/
def _ipv4Str2Buf32 (str : String) : List Nat :=
  ipv4Bytes str.data

/-- `h.padStart(4, "0")`: left-pad to length 4 with `'0'` (identity on
longer strings). -/
def padStart4 (l : List Char) : List Char :=
  List.replicate (4 - l.length) '0' ++ l

/-- `str.replace("::", rep)`: scan left to right and replace the first
occurrence of `"::"` by `rep`, identity when there is none. -/
def replaceDoubleColon (rep : List Char) : List Char → List Char
  | [] => []
  | c :: rest =>
    if c = ':' ∧ rest.head? = some ':' then rep ++ rest.tail
    else c :: replaceDoubleColon rep rest

/-- A hexadecimal digit as `Buffer.from(s, "hex")` accepts it. -/
def isHexDigitJS (c : Char) : Bool :=
  c.isDigit || ('a' ≤ c && c ≤ 'f') || ('A' ≤ c && c ≤ 'F')

/-- Value of a hexadecimal digit. -/
def hexVal (c : Char) : Nat :=
  if c.isDigit then c.toNat - '0'.toNat
  else if 'a' ≤ c then c.toNat - 'a'.toNat + 10
  else c.toNat - 'A'.toNat + 10

/-- `Buffer.from(s, "hex")`: decode two hexadecimal digits per byte,
stopping at the first invalid pair (a trailing odd digit is dropped). -/
def hexPairs : List Char → List Nat
  | a :: b :: rest =>
    if isHexDigitJS a && isHexDigitJS b then (hexVal a * 16 + hexVal b) :: hexPairs rest
    else []
  | _ => []

/-- The `"::"` expansion and hextet-padding steps of
`STUNHelpers._ipv6Str2Buf128`: replace the first `"::"` by
`"::" + ":".repeat(7 - colonCount)`, split on `":"` and left-pad every
hextet with `padStart(4, "0")`.  (Only reached when
`colonCount ≤ 7`, where the `Nat` subtraction `7 - colonCount` agrees
with the JavaScript one.) -/
def ipv6Expand (cs : List Char) : List (List Char) :=
  let colonCount := (cs.filter (fun c => c == ':')).length
  (splitOnChar ':'
    (replaceDoubleColon (':' :: ':' :: List.replicate (7 - colonCount) ':') cs)).map
    padStart4

/-- The branch of `STUNHelpers._ipv6Str2Buf128` after the hextets are
built.  If the last hextet has 4 dot-separated parts, the source
evaluates `hextets[hextets.length - 2].toUpperCase()`: with fewer than
two hextets that indexes `undefined` and throws a `TypeError`,
modelled by `none`.  Otherwise: equal to `"FFFF"` (case-insensitively)
selects the IPv4-mapped form — `Buffer.alloc(16)` zeros,
`writeUInt32BE(0xFFFF, 8)` putting bytes `[0,0,0xFF,0xFF]` at offsets
8..11, and the 4 IPv4 bytes copied to offset 12 — and anything else
decodes the concatenated hextets as hex. -/
def ipv6FromHextets (hextets : List (List Char)) : Option (List Nat) :=
  let lastG := hextets.getD (hextets.length - 1) []
  if (splitOnChar '.' lastG).length = 4 then
    if hextets.length < 2 then
      none
    else if (hextets.getD (hextets.length - 2) []).map Char.toUpper =
        ['F', 'F', 'F', 'F'] then
      some (List.replicate 8 0 ++ [0x00, 0x00, 0xFF, 0xFF] ++ ipv4Bytes lastG)
    else
      some (hexPairs hextets.flatten)
  else
    some (hexPairs hextets.flatten)

/-- `STUNHelpers._ipv6Str2Buf128(str)` (from the commented-out source).
A `none` result models a thrown exception.  The source first evaluates
`":".repeat(7 - colonCount)`: when the input has more than 7 colons the
repeat count is negative and a `RangeError` is thrown, before anything
else happens.  Otherwise the `"::"` is expanded (`ipv6Expand`) and the
hextets are decoded (`ipv6FromHextets`, which models the remaining
`TypeError` path). -/
def _ipv6Str2Buf128 (str : String) : Option (List Nat) :=
  let cs := str.data
  let colonCount := (cs.filter (fun c => c == ':')).length
  if 7 < colonCount then none
  else ipv6FromHextets (ipv6Expand cs)

/-- Builds the textual form `g1:g2:...:gm` from a list of groups; used
only to describe input families in theorem statements. -/
def joinColon : List (List Char) → List Char
  | [] => []
  | [g] => g
  | g :: gs => g ++ ':' :: joinColon gs

/-- The `STUNType` container of `stun.type.ts`: three `any`-typed fields
`type`, `bin`, `f`. -/
structure STUNType where
  type : JSVal
  bin : JSVal
  f : JSVal

/-- `new STUNType()` with no arguments: every constructor parameter takes
its default value `null`. -/
def STUNType.new0 : STUNType :=
  { type := JSVal.null, bin := JSVal.null, f := JSVal.null }

/-- Field reassignment `s.type = v`. -/
def STUNType.setType (s : STUNType) (v : JSVal) : STUNType :=
  { s with type := v }

/-- Field reassignment `s.bin = v`. -/
def STUNType.setBin (s : STUNType) (v : JSVal) : STUNType :=
  { s with bin := v }

/-- Field reassignment `s.f = v`. -/
def STUNType.setF (s : STUNType) (v : JSVal) : STUNType :=
  { s with f := v }

/-! ### Arithmetic helper lemmas -/

/-- Masking with `0xFF` keeps the low byte. -/
theorem and255_eq_mod (x : Nat) : 0xFF &&& x = x % 256 := by
  rw [Nat.and_comm]
  have h := Nat.and_pow_two_sub_one_eq_mod x 8
  norm_num at h
  exact h

/-- `_int2Buf16` only depends on the input modulo `65536`: its two bytes
are the big-endian digits of `v % 65536`. -/
theorem int2Buf16_eq (v : Int) :
    _int2Buf16 v = [(v % 65536).toNat / 256, (v % 65536).toNat % 256] := by
  have h1 : 0xFF &&& ((v % 4294967296).toNat >>> 8) =
      (v % 4294967296).toNat / 256 % 256 := by
    rw [and255_eq_mod, Nat.shiftRight_eq_div_pow]
  have h2 : 0xFF &&& (v % 4294967296).toNat = (v % 4294967296).toNat % 256 :=
    and255_eq_mod _
  have key : (v % 4294967296).toNat % 65536 = (v % 65536).toNat := by
    have h65 : v % 4294967296 % 65536 = v % 65536 :=
      Int.emod_emod_of_dvd v (by norm_num)
    omega
  simp only [_int2Buf16, h1, h2, List.cons.injEq, and_true]
  constructor
  · omega
  · omega

/-- C1: for every integer `v` in `[0, 65535]`, `_int2Buf16 v` is a
two-byte sequence, byte 0 the high-order 8 bits of `v` and byte 1 the
low-order 8 bits, and `(byte0 <<< 8) ||| byte1` reconstructs `v`
(big-endian round-trip). -/
theorem int2Buf16_bigEndian_roundtrip (v : Int) (h0 : 0 ≤ v) (h1 : v ≤ 65535) :
    _int2Buf16 v = [v.toNat / 256, v.toNat % 256] ∧
    (_int2Buf16 v).length = 2 ∧
    ((_int2Buf16 v).getD 0 0 <<< 8) ||| (_int2Buf16 v).getD 1 0 = v.toNat := by
  have hv : v % 65536 = v := Int.emod_eq_of_lt h0 (by omega)
  have he : _int2Buf16 v = [v.toNat / 256, v.toNat % 256] := by
    rw [int2Buf16_eq, hv]
  refine ⟨he, by rw [he]; rfl, ?_⟩
  rw [he]
  simp only [List.getD_cons_zero, List.getD_cons_succ]
  have hb : v.toNat % 256 < 2 ^ 8 := by omega
  have hor := Nat.mul_add_lt_is_or hb (v.toNat / 256)
  rw [Nat.shiftLeft_eq, Nat.mul_comm (v.toNat / 256) (2 ^ 8), ← hor]
  omega

/-- Witness for C1 at `v = 448`. -/
theorem int2Buf16_bigEndian_roundtrip_witness :
    _int2Buf16 448 = [1, 192] ∧
    (_int2Buf16 448 = [(448 : Int).toNat / 256, (448 : Int).toNat % 256] ∧
     (_int2Buf16 448).length = 2 ∧
     ((_int2Buf16 448).getD 0 0 <<< 8) ||| (_int2Buf16 448).getD 1 0 = (448 : Int).toNat) :=
  ⟨by decide, int2Buf16_bigEndian_roundtrip 448 (by decide) (by decide)⟩

/-- C7: for integers outside `[0, 65535]` the function does not fail
(it is total) and wraps around: the output equals the output at
`v % 65536`. -/
theorem int2Buf16_wraparound (v : Int) (_h : v < 0 ∨ 65535 < v) :
    _int2Buf16 v = _int2Buf16 (v % 65536) := by
  rw [int2Buf16_eq, int2Buf16_eq (v % 65536),
    Int.emod_emod_of_dvd v (dvd_refl (65536 : Int))]

/-- Witness for C7 at `v = 70000` (and at `v = -1`). -/
theorem int2Buf16_wraparound_witness :
    (_int2Buf16 70000 = [17, 112] ∧ _int2Buf16 (-1) = [255, 255]) ∧
    _int2Buf16 70000 = _int2Buf16 (70000 % 65536) :=
  ⟨by decide, int2Buf16_wraparound 70000 (Or.inr (by decide))⟩

/-- C3: at an in-bounds byte index and a bit offset in `[0, 7]`,
`_getBit` returns a value in `{0, 1}`, and returns `1` exactly when the
bit selected by the shifted single-bit mask is set (offset 0 is the
least-significant bit); in particular on a sequence whose byte 0 is
`0b00001000` it returns `1` at `(0, 3)` and `0` at `(0, 0)`. -/
theorem getBit_spec :
    (∀ (buffer : List Nat) (idx off : Nat), idx < buffer.length → off ≤ 7 →
      ((_getBit buffer idx off = 1 ↔ Nat.testBit (buffer.getD idx 0) off) ∧
       (_getBit buffer idx off = 0 ∨ _getBit buffer idx off = 1))) ∧
    _getBit [8] 0 3 = 1 ∧ _getBit [8] 0 0 = 0 := by
  refine ⟨?_, by decide, by decide⟩
  intro buffer idx off _hidx hoff
  have hoff32 : off % 32 = off := Nat.mod_eq_of_lt (by omega)
  have hlt : (2 : Nat) ^ off < 256 := by
    calc (2 : Nat) ^ off ≤ 2 ^ 7 := Nat.pow_le_pow_right (by omega) hoff
    _ < 256 := by norm_num
  have hmask : (0x01 <<< (off % 32)) % 256 = 2 ^ off := by
    rw [hoff32, Nat.shiftLeft_eq, one_mul, Nat.mod_eq_of_lt hlt]
  simp only [_getBit, hmask, Nat.and_two_pow]
  by_cases hb : Nat.testBit (buffer.getD idx 0) off
  · have hpos : (0 : Nat) < 2 ^ off := Nat.pos_pow_of_pos off (by omega)
    simp [hb, Nat.pos_iff_ne_zero.mp hpos]
  · simp [hb]

/-- Witness for C3 at buffer `[129]`, byte 0, bit 7. -/
theorem getBit_spec_witness :
    (_getBit [129] 0 7 = 1 ↔ Nat.testBit (List.getD [129] 0 0) 7) ∧
    (_getBit [129] 0 7 = 0 ∨ _getBit [129] 0 7 = 1) :=
  getBit_spec.1 [129] 0 7 (by decide) (by decide)

/-- C4 (code bug): at an out-of-bounds byte index the code does not
fail: `buffer[idx]` is `undefined`, which `&` coerces to `0`, so
`_getBit` silently returns the default `0` — here on the one-byte
sequence `[0xFF]`, whose every bit is set, reading byte 1 yields `0`
while the same read at the in-bounds byte 0 yields `1`. -/
theorem getBit_out_of_bounds_returns_zero :
    _getBit [0xFF] 1 0 = 0 ∧ _getBit [0xFF] 0 0 = 1 := by decide

/-- C10: the mask of `_getBit` lives in a one-byte buffer, so after the
left shift it is truncated modulo 256: for every in-bounds byte index
and every bit offset in `[8, 31]` the mask is `0` and `_getBit` returns
`0` whatever the byte holds, instead of rejecting the offset. -/
theorem getBit_offset_overflow (buffer : List Nat) (idx off : Nat)
    (_hidx : idx < buffer.length) (h8 : 8 ≤ off) (h31 : off ≤ 31) :
    _getBit buffer idx off = 0 := by
  have hoff32 : off % 32 = off := Nat.mod_eq_of_lt (by omega)
  have hmask : (0x01 <<< (off % 32)) % 256 = 0 := by
    rw [hoff32, Nat.shiftLeft_eq, one_mul]
    obtain ⟨c, hc⟩ : (2 : Nat) ^ 8 ∣ 2 ^ off := pow_dvd_pow 2 h8
    rw [hc]
    norm_num

  simp [_getBit, hmask]

/-- Witness for C10 at buffer `[0xFF]`, byte 0, bit offset 8. -/
theorem getBit_offset_overflow_witness :
    (0 < 1 ∧ 8 ≤ 8 ∧ 8 ≤ 31) ∧ _getBit [0xFF] 0 8 = 0 :=
  ⟨by decide, getBit_offset_overflow [0xFF] 0 8 (by decide) (by decide) (by decide)⟩

/-! ### Buffer comparison -/

/-- `getD` with any default reads the element at an in-bounds index. -/
theorem getD_in_bounds (l : List Nat) (k : Nat) (h : k < l.length) :
    l.getD k 0 = l.get ⟨k, h⟩ := by
  simp [List.getD_eq_getElem?_getD, List.getElem?_eq_getElem h]

/-- The comparison loop succeeds exactly when the next `n` positions
agree. -/
theorem bufEqGo_iff (a b : List Nat) (n : Nat) :
    ∀ i, (bufEqGo a b n i = true ↔
      ∀ k, k < n → a.getD (i + k) 0 = b.getD (i + k) 0) := by
  induction n with
  | zero => intro i; simp [bufEqGo]
  | succ n ih =>
    intro i
    by_cases h : a.getD i 0 = b.getD i 0
    · have hstep : bufEqGo a b (n + 1) i = bufEqGo a b n (i + 1) := by
        simp only [bufEqGo]
        rw [if_neg (not_not_intro h)]
      rw [hstep, ih (i + 1)]
      constructor
      · intro hall k hk
        match k with
        | 0 => simpa using h
        | k + 1 =>
          have hs := hall k (by omega)
          have harith : i + 1 + k = i + (k + 1) := by omega
          rwa [harith] at hs
      · intro hall k hk
        have hs := hall (k + 1) (by omega)
        have harith : i + 1 + k = i + (k + 1) := by omega
        rwa [← harith] at hs
    · have hstep : bufEqGo a b (n + 1) i = false := by
        simp only [bufEqGo]
        rw [if_pos h]
      rw [hstep]
      constructor
      · intro hfalse
        exact Bool.noConfusion hfalse
      · intro hall
        exact absurd (by simpa using hall 0 (by omega)) h

/-- On two buffers, `_compareBuf` decides list equality. -/
theorem compareBuf_buffers (la lb : List Nat) :
    _compareBuf (JSVal.buffer la) (JSVal.buffer lb) = true ↔ la = lb := by
  have hunfold : _compareBuf (JSVal.buffer la) (JSVal.buffer lb) =
      if la.length ≠ lb.length then false else bufEqFrom la lb 0 := rfl
  rw [hunfold]
  by_cases hlen : la.length = lb.length
  · rw [if_neg (not_not_intro hlen)]
    have hfrom : bufEqFrom la lb 0 = bufEqGo la lb la.length 0 := by
      simp [bufEqFrom]
    rw [hfrom, bufEqGo_iff la lb la.length 0]
    constructor
    · intro hall
      refine List.ext_get hlen ?_
      intro k h1 h2
      have hk := hall k h1
      rwa [Nat.zero_add, getD_in_bounds la k h1, getD_in_bounds lb k h2] at hk
    · rintro rfl
      intro k _
      rfl
  · rw [if_pos hlen]
    exact ⟨fun hfalse => Bool.noConfusion hfalse,
      fun heq => absurd (by rw [heq]) hlen⟩

/-- `_compareBuf` answers `true` exactly when both arguments are buffers
holding the same byte list. -/
theorem compareBuf_true_iff (a b : JSVal) :
    _compareBuf a b = true ↔ ∃ l, a = JSVal.buffer l ∧ b = JSVal.buffer l := by
  cases a <;> cases b <;>
    first
      | (rw [compareBuf_buffers]; simp; exact eq_comm)
      | simp [_compareBuf]

/-- C2: `_compareBuf` returns `true` iff both arguments are byte
sequences of the same length agreeing at every index; any type mismatch
(a non-buffer argument), length mismatch or byte difference yields
`false`, and the function is total, so it never raises. -/
theorem compareBuf_spec (a b : JSVal) :
    _compareBuf a b = true ↔
      ∃ la lb, a = JSVal.buffer la ∧ b = JSVal.buffer lb ∧
        la.length = lb.length ∧ ∀ i, i < la.length → la.getD i 0 = lb.getD i 0 := by
  rw [compareBuf_true_iff]
  constructor
  · rintro ⟨l, rfl, rfl⟩
    exact ⟨l, l, rfl, rfl, rfl, fun i _ => rfl⟩
  · rintro ⟨la, lb, rfl, rfl, hlen, hbytes⟩
    refine ⟨la, rfl, ?_⟩
    have heq : la = lb := by
      refine List.ext_get hlen ?_
      intro k h1 h2
      have hk := hbytes k h1
      rwa [getD_in_bounds la k h1, getD_in_bounds lb k h2] at hk
    rw [heq]

/-- Witness for C2: both directions at concrete values. -/
theorem compareBuf_spec_witness :
    (_compareBuf (JSVal.buffer [1, 2]) (JSVal.buffer [1, 2]) = true ↔
      ∃ la lb, JSVal.buffer [1, 2] = JSVal.buffer la ∧
        JSVal.buffer [1, 2] = JSVal.buffer lb ∧
        la.length = lb.length ∧ ∀ i, i < la.length → la.getD i 0 = lb.getD i 0) ∧
    _compareBuf (JSVal.buffer [1, 2]) (JSVal.buffer [1, 2]) = true ∧
    _compareBuf (JSVal.buffer [1, 2]) (JSVal.buffer [1, 3]) = false ∧
    _compareBuf (JSVal.str "x") (JSVal.buffer [1, 2]) = false :=
  ⟨compareBuf_spec (JSVal.buffer [1, 2]) (JSVal.buffer [1, 2]),
    by decide, by decide, by decide⟩

/-- C8: `_compareBuf` is reflexive on byte sequences, symmetric on all
inputs, and always `false` on byte sequences of differing lengths. -/
theorem compareBuf_refl_symm_length :
    (∀ l : List Nat, _compareBuf (JSVal.buffer l) (JSVal.buffer l) = true) ∧
    (∀ a b : JSVal, _compareBuf a b = _compareBuf b a) ∧
    (∀ la lb : List Nat, la.length ≠ lb.length →
      _compareBuf (JSVal.buffer la) (JSVal.buffer lb) = false) := by
  refine ⟨fun l => (compareBuf_true_iff _ _).mpr ⟨l, rfl, rfl⟩,
    fun a b => ?_, fun la lb hne => ?_⟩
  · rw [Bool.eq_iff_iff, compareBuf_true_iff, compareBuf_true_iff]
    constructor
    · rintro ⟨l, h1, h2⟩
      exact ⟨l, h2, h1⟩
    · rintro ⟨l, h1, h2⟩
      exact ⟨l, h2, h1⟩
  · cases hcb : _compareBuf (JSVal.buffer la) (JSVal.buffer lb) with
    | false => rfl
    | true =>
      have := (compareBuf_buffers la lb).mp hcb
      exact absurd (by rw [this]) hne

/-- Witness for C8: the length-mismatch clause at `[1]` and `[1, 2]`,
plus reflexivity and symmetry instances. -/
theorem compareBuf_refl_symm_length_witness :
    _compareBuf (JSVal.buffer [1]) (JSVal.buffer [1, 2]) = false :=
  compareBuf_refl_symm_length.2.2 [1] [1, 2] (by decide)

/-- C9: a `STUNType` constructed with no arguments has all three fields
equal to the `null` sentinel, and each field is independently settable:
reassigning one field leaves the other two unchanged. -/
theorem stunType_defaults_independent :
    (STUNType.new0.type = JSVal.null ∧ STUNType.new0.bin = JSVal.null ∧
      STUNType.new0.f = JSVal.null) ∧
    (∀ (s : STUNType) (v : JSVal),
      (s.setType v).type = v ∧ (s.setType v).bin = s.bin ∧ (s.setType v).f = s.f ∧
      (s.setBin v).bin = v ∧ (s.setBin v).type = s.type ∧ (s.setBin v).f = s.f ∧
      (s.setF v).f = v ∧ (s.setF v).type = s.type ∧ (s.setF v).bin = s.bin) :=
  ⟨⟨rfl, rfl, rfl⟩,
    fun _ _ => ⟨rfl, rfl, rfl, rfl, rfl, rfl, rfl, rfl, rfl⟩⟩

/-- C5 counterexample: the claimed format error does not happen.  At
`"256.1.1.1"` the component 256 is out of `[0, 255]`, yet the function
returns the buffer `[0, 1, 1, 1]` (the `Buffer.from` coercion truncates
256 to `256 & 255 = 0`); at `"1.2.3"` there are only 3 components, yet
it returns the 3-byte buffer `[1, 2, 3]`.  No error is raised in either
case: the embedded function is total. -/
theorem ipv4_no_format_error :
    _ipv4Str2Buf32 "256.1.1.1" = [0, 1, 1, 1] ∧
    _ipv4Str2Buf32 "1.2.3" = [1, 2, 3] := by decide

/-- C5 amended: `_ipv4Str2Buf32` splits on `"."`, parses each component
in base 10 and emits one byte per component in order (the parsed value
truncated modulo 256, `NaN` becoming 0); well-formed input gives the 4
address bytes, and malformed input is NOT rejected: `"256.1.1.1"`
yields `[0, 1, 1, 1]` and `"1.2.3"` yields the 3-byte `[1, 2, 3]`. -/
theorem ipv4_parse_amended :
    _ipv4Str2Buf32 "192.168.1.1" = [192, 168, 1, 1] ∧
    _ipv4Str2Buf32 "256.1.1.1" = [0, 1, 1, 1] ∧
    _ipv4Str2Buf32 "1.2.3" = [1, 2, 3] ∧
    (∀ s : String, (_ipv4Str2Buf32 s).length = (splitOnChar '.' s.data).length) := by
  refine ⟨by decide, by decide, by decide, fun s => ?_⟩
  simp [_ipv4Str2Buf32, ipv4Bytes]

/-! ### IPv6 conversion -/

/-- Splitting a list free of the separator yields that single field. -/
theorem splitOnChar_no_sep (sep : Char) (l : List Char)
    (h : ∀ c ∈ l, ¬(c = sep)) : splitOnChar sep l = [l] := by
  induction l with
  | nil => rfl
  | cons c rest ih =>
    have hc : ¬(c = sep) := h c (List.mem_cons_self c rest)
    have hrest : ∀ x ∈ rest, ¬(x = sep) := fun x hx => h x (List.mem_cons_of_mem c hx)
    simp only [splitOnChar]
    rw [if_neg hc, ih hrest]

/-- Four hexadecimal characters decode to exactly two bytes. -/
theorem hexPairs_length_of_hex4 (l : List Char) (h4 : l.length = 4)
    (hhex : ∀ c ∈ l, isHexDigitJS c = true) : (hexPairs l).length = 2 := by
  rcases l with _ | ⟨a, t⟩
  · simp at h4
  · have h3 : t.length = 3 := by simpa using h4
    obtain ⟨b, c, d, rfl⟩ := List.length_eq_three.mp h3
    have ha := hhex a (by simp)
    have hb := hhex b (by simp)
    have hc := hhex c (by simp)
    have hd := hhex d (by simp)
    simp [hexPairs, ha, hb, hc, hd]

/-- A split never produces the empty list of fields. -/
theorem splitOnChar_ne_nil (sep : Char) (l : List Char) : splitOnChar sep l ≠ [] := by
  cases l with
  | nil => simp [splitOnChar]
  | cons c rest =>
    by_cases hc : c = sep
    · simp [splitOnChar, hc]
    · cases hsplit : splitOnChar sep rest with
      | nil => simp [splitOnChar, hc, hsplit]
      | cons g gs => simp [splitOnChar, hc, hsplit]

/-- A non-separator head joins the first field of the split of the
tail. -/
theorem splitOnChar_cons_ne (sep c : Char) (rest : List Char) (hc : ¬(c = sep))
    (g : List Char) (gs : List (List Char)) (h : splitOnChar sep rest = g :: gs) :
    splitOnChar sep (c :: rest) = (c :: g) :: gs := by
  simp [splitOnChar, hc, h]

/-- A separator head opens an empty field. -/
theorem splitOnChar_sep_cons (sep : Char) (rest : List Char) :
    splitOnChar sep (sep :: rest) = [] :: splitOnChar sep rest := by
  simp [splitOnChar]

/-- Splitting is compositional across an explicit separator. -/
theorem splitOnChar_append (sep : Char) (A B : List Char) :
    splitOnChar sep (A ++ sep :: B) = splitOnChar sep A ++ splitOnChar sep B := by
  induction A with
  | nil =>
    rw [List.nil_append, splitOnChar_sep_cons]
    rfl
  | cons c A ih =>
    by_cases hc : c = sep
    · subst hc
      rw [List.cons_append, splitOnChar_sep_cons, splitOnChar_sep_cons, ih]
      rfl
    · obtain ⟨g, gs, hA⟩ : ∃ g gs, splitOnChar sep A = g :: gs := by
        cases hA : splitOnChar sep A with
        | nil => exact absurd hA (splitOnChar_ne_nil sep A)
        | cons g gs => exact ⟨g, gs, rfl⟩
      have hAB : splitOnChar sep (A ++ sep :: B) = g :: (gs ++ splitOnChar sep B) := by
        rw [ih, hA]
        rfl
      rw [List.cons_append, splitOnChar_cons_ne sep c _ hc _ _ hAB,
        splitOnChar_cons_ne sep c _ hc _ _ hA]
      rfl

/-- A run of separators opens one empty field per separator. -/
theorem splitOnChar_sep_run (sep : Char) (k : Nat) (t : List Char) :
    splitOnChar sep (List.replicate k sep ++ t) =
      List.replicate k [] ++ splitOnChar sep t := by
  induction k with
  | zero => rfl
  | succ k ih =>
    rw [List.replicate_succ, List.cons_append, splitOnChar_sep_cons, ih,
      List.replicate_succ, List.cons_append]

/-- Splitting a colon-joined list of colon-free groups recovers the
groups. -/
theorem splitOnChar_joinColon (gs : List (List Char)) (hne : gs ≠ [])
    (hfree : ∀ g ∈ gs, ∀ c ∈ g, ¬(c = ':')) :
    splitOnChar ':' (joinColon gs) = gs := by
  induction gs with
  | nil => exact absurd rfl hne
  | cons g rest ih =>
    cases rest with
    | nil => exact splitOnChar_no_sep ':' g (hfree g (by simp))
    | cons g2 rest2 =>
      rw [show joinColon (g :: g2 :: rest2) = g ++ ':' :: joinColon (g2 :: rest2)
          from rfl,
        splitOnChar_append, splitOnChar_no_sep ':' g (hfree g (by simp)),
        ih (by simp) (fun x hx => hfree x (List.mem_cons_of_mem g hx))]
      rfl

/-- A nonempty first group puts its first character at the head of the
joined list. -/
theorem joinColon_cons_head (c0 : Char) (g' : List Char) (rest : List (List Char)) :
    ∃ t, joinColon ((c0 :: g') :: rest) = c0 :: t := by
  cases rest with
  | nil => exact ⟨g', rfl⟩
  | cons a b => exact ⟨g' ++ ':' :: joinColon (a :: b), rfl⟩

/-- The replacement scan passes over a colon-free prefix unchanged. -/
theorem replaceDoubleColon_skip (rep g t : List Char) (hg : ∀ c ∈ g, ¬(c = ':')) :
    replaceDoubleColon rep (g ++ t) = g ++ replaceDoubleColon rep t := by
  induction g with
  | nil => rfl
  | cons c g ih =>
    have hc : ¬(c = ':') := hg c (by simp)
    rw [List.cons_append]
    show (if c = ':' ∧ (g ++ t).head? = some ':' then rep ++ (g ++ t).tail
      else c :: replaceDoubleColon rep (g ++ t)) = _
    rw [if_neg (by simp [hc]), ih (fun x hx => hg x (by simp [hx]))]
    rfl

/-- The first `"::"` of `joinColon gs1 ++ "::" ++ J2` is the explicit
one, provided the `gs1` groups are nonempty and colon-free: the
replacement lands exactly there. -/
theorem replaceDoubleColon_junction (rep J2 : List Char) (gs1 : List (List Char))
    (h1 : ∀ g ∈ gs1, g ≠ [] ∧ ∀ c ∈ g, ¬(c = ':')) :
    replaceDoubleColon rep (joinColon gs1 ++ ':' :: ':' :: J2) =
      joinColon gs1 ++ rep ++ J2 := by
  induction gs1 with
  | nil =>
    show replaceDoubleColon rep (':' :: ':' :: J2) = rep ++ J2
    show (if ':' = ':' ∧ (':' :: J2).head? = some ':' then rep ++ (':' :: J2).tail
      else ':' :: replaceDoubleColon rep (':' :: J2)) = rep ++ J2
    rw [if_pos ⟨rfl, rfl⟩]
    rfl
  | cons g rest ih =>
    have hgfree : ∀ c ∈ g, ¬(c = ':') := (h1 g (by simp)).2
    have hrest : ∀ x ∈ rest, x ≠ [] ∧ ∀ c ∈ x, ¬(c = ':') :=
      fun x hx => h1 x (List.mem_cons_of_mem g hx)
    cases rest with
    | nil =>
      show replaceDoubleColon rep (g ++ ':' :: ':' :: J2) = g ++ rep ++ J2
      rw [replaceDoubleColon_skip rep g _ hgfree]
      rw [show replaceDoubleColon rep (':' :: ':' :: J2) = rep ++ J2 from by
        show (if ':' = ':' ∧ (':' :: J2).head? = some ':' then rep ++ (':' :: J2).tail
          else ':' :: replaceDoubleColon rep (':' :: J2)) = rep ++ J2
        rw [if_pos ⟨rfl, rfl⟩]
        rfl]
      rw [List.append_assoc]
    | cons g2 rest2 =>
      obtain ⟨c0, g2', rfl⟩ : ∃ c0 g2', g2 = c0 :: g2' := by
        cases g2 with
        | nil => exact absurd rfl (hrest [] (by simp)).1
        | cons c0 g2' => exact ⟨c0, g2', rfl⟩
      have hc0 : ¬(c0 = ':') := (hrest (c0 :: g2') (by simp)).2 c0 (by simp)
      obtain ⟨t, ht⟩ := joinColon_cons_head c0 g2' rest2
      rw [show joinColon (g :: (c0 :: g2') :: rest2) =
          g ++ ':' :: joinColon ((c0 :: g2') :: rest2) from rfl]
      rw [List.append_assoc, List.cons_append]
      rw [replaceDoubleColon_skip rep g _ hgfree]
      rw [show replaceDoubleColon rep
          (':' :: (joinColon ((c0 :: g2') :: rest2) ++ ':' :: ':' :: J2)) =
          ':' :: replaceDoubleColon rep
            (joinColon ((c0 :: g2') :: rest2) ++ ':' :: ':' :: J2) from by
        show (if ':' = ':' ∧ (joinColon ((c0 :: g2') :: rest2) ++
              ':' :: ':' :: J2).head? = some ':' then
            rep ++ (joinColon ((c0 :: g2') :: rest2) ++ ':' :: ':' :: J2).tail
          else ':' :: replaceDoubleColon rep
            (joinColon ((c0 :: g2') :: rest2) ++ ':' :: ':' :: J2)) = _
        rw [if_neg (by simp [ht, hc0])]]
      rw [ih hrest]
      simp [List.append_assoc]

/-- A colon-joined list of colon-free groups has one colon less than it
has groups. -/
theorem countColon_joinColon (gs : List (List Char))
    (hfree : ∀ g ∈ gs, ∀ c ∈ g, ¬(c = ':')) :
    (List.filter (fun c => c == ':') (joinColon gs)).length = gs.length - 1 := by
  induction gs with
  | nil => rfl
  | cons g rest ih =>
    have hgfil : List.filter (fun c => c == ':') g = [] :=
      List.filter_eq_nil_iff.mpr (fun c hc => by simpa using hfree g (by simp) c hc)
    cases rest with
    | nil =>
      show (List.filter (fun c => c == ':') g).length = 0
      rw [hgfil]
      rfl
    | cons g2 rest2 =>
      have ihr := ih (fun x hx => hfree x (List.mem_cons_of_mem g hx))
      rw [show joinColon (g :: g2 :: rest2) = g ++ ':' :: joinColon (g2 :: rest2)
          from rfl,
        List.filter_append, hgfil, List.nil_append,
        List.filter_cons_of_pos (by rfl), List.length_cons, ihr]
      simp only [List.length_cons]
      omega

/-- The split of the expanded address: the fields of the part before
the `"::"`, the empty fields the colon run opens, and the fields of the
part after. -/
theorem split_expansion (J1 J2 : List Char) (k : Nat) :
    splitOnChar ':' (J1 ++ (':' :: ':' :: List.replicate k ':') ++ J2) =
      splitOnChar ':' J1 ++ ([] :: (List.replicate k [] ++ splitOnChar ':' J2)) := by
  rw [show J1 ++ (':' :: ':' :: List.replicate k ':') ++ J2 =
      J1 ++ ':' :: (':' :: (List.replicate k ':' ++ J2)) from by simp,
    splitOnChar_append, splitOnChar_sep_cons, splitOnChar_sep_run]

/-- The expansion step on an address `gs1 ++ "::" ++ gs2` built from
nonempty colon-free groups whose colon count stays within 7: the single
`"::"` becomes exactly the zero groups needed for 8 groups in total,
and every group is left-padded to width 4. -/
theorem ipv6Expand_eq (gs1 gs2 : List (List Char))
    (h1 : ∀ g ∈ gs1, g ≠ [] ∧ ∀ c ∈ g, ¬(c = ':'))
    (h2 : ∀ g ∈ gs2, g ≠ [] ∧ ∀ c ∈ g, ¬(c = ':'))
    (hcc : gs1.length - 1 + (gs2.length - 1) + 2 ≤ 7) :
    ipv6Expand (joinColon gs1 ++ ':' :: ':' :: joinColon gs2) =
      (gs1 ++ List.replicate (8 - (gs1.length + gs2.length)) [] ++ gs2).map
        padStart4 := by
  have hfree1 : ∀ g ∈ gs1, ∀ c ∈ g, ¬(c = ':') := fun g hg => (h1 g hg).2
  have hfree2 : ∀ g ∈ gs2, ∀ c ∈ g, ¬(c = ':') := fun g hg => (h2 g hg).2
  have hcount : (List.filter (fun c => c == ':')
      (joinColon gs1 ++ ':' :: ':' :: joinColon gs2)).length =
      gs1.length - 1 + (gs2.length - 1) + 2 := by
    rw [List.filter_append, List.filter_cons_of_pos (by rfl),
      List.filter_cons_of_pos (by rfl), List.length_append,
      countColon_joinColon gs1 hfree1, List.length_cons, List.length_cons,
      countColon_joinColon gs2 hfree2]
    omega
  simp only [ipv6Expand]
  rw [hcount, replaceDoubleColon_junction _ _ gs1 h1, split_expansion]
  refine congrArg (List.map padStart4) ?_
  rcases gs1 with _ | ⟨q1, qs1⟩
  · rcases gs2 with _ | ⟨q2, qs2⟩
    · rfl
    · rw [splitOnChar_joinColon (q2 :: qs2) (by simp) hfree2]
      have harith : 7 - ((([] : List (List Char))).length - 1 +
          ((q2 :: qs2).length - 1) + 2) = 5 - qs2.length := by
        simp only [List.length_nil, List.length_cons]
        omega
      have harith2 : 8 - ((([] : List (List Char))).length + (q2 :: qs2).length) =
          2 + (5 - qs2.length) := by
        simp only [List.length_nil, List.length_cons] at hcc ⊢
        omega
      rw [harith, harith2, List.replicate_add]
      rfl
  · rcases gs2 with _ | ⟨q2, qs2⟩
    · rw [splitOnChar_joinColon (q1 :: qs1) (by simp) hfree1]
      have harith : 7 - ((q1 :: qs1).length - 1 +
          ((([] : List (List Char))).length - 1) + 2) = 5 - qs1.length := by
        simp only [List.length_nil, List.length_cons]
        omega
      have harith2 : 8 - ((q1 :: qs1).length + (([] : List (List Char))).length) =
          (5 - qs1.length) + 2 := by
        simp only [List.length_nil, List.length_cons] at hcc ⊢
        omega
      rw [harith, harith2, List.append_assoc]
      refine congrArg (fun X => (q1 :: qs1) ++ X) ?_
      rw [List.append_nil,
        show splitOnChar ':' (joinColon []) = [[]] from rfl,
        show ([[]] : List (List Char)) = List.replicate 1 [] from rfl,
        ← List.replicate_add, ← List.replicate_succ]
    · rw [splitOnChar_joinColon (q1 :: qs1) (by simp) hfree1,
        splitOnChar_joinColon (q2 :: qs2) (by simp) hfree2,
        List.append_assoc]
      refine congrArg (fun X => (q1 :: qs1) ++ X) ?_
      have harith : 7 - ((q1 :: qs1).length - 1 + ((q2 :: qs2).length - 1) + 2) =
          7 - ((q1 :: qs1).length + (q2 :: qs2).length) := by
        simp only [List.length_cons]
        omega
      have harith2 : 8 - ((q1 :: qs1).length + (q2 :: qs2).length) =
          (7 - ((q1 :: qs1).length + (q2 :: qs2).length)) + 1 := by
        simp only [List.length_cons] at hcc ⊢
        omega
      rw [harith, harith2, List.replicate_succ]
      rfl

/-- A hexadecimal digit is not a dot. -/
theorem hex_ne_dot {c : Char} (h : isHexDigitJS c = true) : ¬(c = '.') := by
  intro heq
  subst heq
  exact absurd h (by decide)

/-- A hexadecimal digit is not a colon. -/
theorem hex_ne_colon {c : Char} (h : isHexDigitJS c = true) : ¬(c = ':') := by
  intro heq
  subst heq
  exact absurd h (by decide)

/-- The colon count of a whole `gs1 ++ "::" ++ gs2` address. -/
theorem countColon_input (gs1 gs2 : List (List Char))
    (hfree1 : ∀ g ∈ gs1, ∀ c ∈ g, ¬(c = ':'))
    (hfree2 : ∀ g ∈ gs2, ∀ c ∈ g, ¬(c = ':')) :
    (List.filter (fun c => c == ':')
      (joinColon gs1 ++ ':' :: ':' :: joinColon gs2)).length =
      gs1.length - 1 + (gs2.length - 1) + 2 := by
  rw [List.filter_append, List.filter_cons_of_pos (by rfl),
    List.filter_cons_of_pos (by rfl), List.length_append,
    countColon_joinColon gs1 hfree1, List.length_cons, List.length_cons,
    countColon_joinColon gs2 hfree2]
  omega

/-- Hex decoding distributes over a 4-hex-digit prefix. -/
theorem hexPairs_append_of_hex4 (l t : List Char) (h4 : l.length = 4)
    (hhex : ∀ c ∈ l, isHexDigitJS c = true) :
    hexPairs (l ++ t) = hexPairs l ++ hexPairs t := by
  rcases l with _ | ⟨a, l⟩
  · simp at h4
  · have h3 : l.length = 3 := by simpa using h4
    obtain ⟨b, c, d, rfl⟩ := List.length_eq_three.mp h3
    have ha := hhex a (by simp)
    have hb := hhex b (by simp)
    have hc := hhex c (by simp)
    have hd := hhex d (by simp)
    simp [hexPairs, ha, hb, hc, hd]

/-- Decoding the concatenation of 4-hex-digit groups yields two bytes
per group. -/
theorem hexPairs_flatten_length (H : List (List Char))
    (hprops : ∀ h ∈ H, h.length = 4 ∧ ∀ c ∈ h, isHexDigitJS c = true) :
    (hexPairs H.flatten).length = 2 * H.length := by
  induction H with
  | nil => rfl
  | cons g H ih =>
    rw [List.flatten_cons,
      hexPairs_append_of_hex4 g _ (hprops g (by simp)).1 (hprops g (by simp)).2,
      List.length_append,
      hexPairs_length_of_hex4 g (hprops g (by simp)).1 (hprops g (by simp)).2,
      ih (fun h hh => hprops h (List.mem_cons_of_mem g hh)), List.length_cons]
    omega

/-- When the last hextet is not a dotted quad, the decoder takes the
regular hex branch. -/
theorem ipv6FromHextets_regular (H : List (List Char))
    (hne : ¬((splitOnChar '.' (H.getD (H.length - 1) [])).length = 4)) :
    ipv6FromHextets H = some (hexPairs H.flatten) := by
  simp only [ipv6FromHextets]
  rw [if_neg hne]

/-- When the last hextet is a dotted quad and the one before upper-cases
to `"FFFF"`, the decoder takes the IPv4-mapped branch. -/
theorem ipv6FromHextets_mapped (A : List (List Char)) (f d : List Char)
    (hdot : (splitOnChar '.' d).length = 4)
    (hf : f.map Char.toUpper = ['F', 'F', 'F', 'F']) :
    ipv6FromHextets (A ++ [f, d]) =
      some (List.replicate 8 0 ++ [0x00, 0x00, 0xFF, 0xFF] ++ ipv4Bytes d) := by
  have hlen : (A ++ [f, d]).length = A.length + 2 := by simp
  have hlast : (A ++ [f, d]).getD ((A ++ [f, d]).length - 1) [] = d := by
    rw [hlen]
    show (A ++ [f, d]).getD (A.length + 1) [] = d
    rw [List.getD_eq_getElem?_getD, List.getElem?_append_right (by omega)]
    have hidx : A.length + 1 - A.length = 1 := by omega
    rw [hidx]
    rfl
  have hprev : (A ++ [f, d]).getD ((A ++ [f, d]).length - 2) [] = f := by
    rw [hlen]
    show (A ++ [f, d]).getD A.length [] = f
    rw [List.getD_eq_getElem?_getD, List.getElem?_append_right (by omega)]
    have hidx : A.length - A.length = 0 := by omega
    rw [hidx]
    rfl
  simp only [ipv6FromHextets, hlast, hprev]
  rw [if_pos hdot, if_neg (by omega : ¬(A ++ [f, d]).length < 2), if_pos hf]

/-- An 8-hextet list of 4-hex-digit groups decodes through the regular
branch to 16 bytes. -/
theorem ipv6FromHextets_of_hex8 (H : List (List Char)) (hlen8 : H.length = 8)
    (hprops : ∀ h ∈ H, h.length = 4 ∧ ∀ c ∈ h, isHexDigitJS c = true) :
    ipv6FromHextets H = some (hexPairs H.flatten) ∧
      (hexPairs H.flatten).length = 16 := by
  have hpos : 0 < H.length := by omega
  have hmem : H.getD (H.length - 1) [] ∈ H := by
    rw [List.getD_eq_getElem?_getD,
      List.getElem?_eq_getElem (Nat.sub_lt hpos Nat.one_pos)]
    simp
  constructor
  · apply ipv6FromHextets_regular
    rw [splitOnChar_no_sep '.' _ (fun c hc => hex_ne_dot ((hprops _ hmem).2 c hc))]
    simp
  · rw [hexPairs_flatten_length H hprops, hlen8]

/-- General regular form: an address `gs1 ++ "::" ++ gs2` made of
nonempty hextets of at most 4 hexadecimal digits, with at most 7 colons
in total, expands to exactly 8 groups (the `"::"` supplying the missing
all-zero groups), each left-padded to 4 hex digits, and decodes to 16
bytes. -/
theorem ipv6_regular_general (gs1 gs2 : List (List Char))
    (h1 : ∀ g ∈ gs1, g ≠ [] ∧ g.length ≤ 4 ∧ ∀ c ∈ g, isHexDigitJS c = true)
    (h2 : ∀ g ∈ gs2, g ≠ [] ∧ g.length ≤ 4 ∧ ∀ c ∈ g, isHexDigitJS c = true)
    (hcc : gs1.length - 1 + (gs2.length - 1) + 2 ≤ 7) :
    ∃ H : List (List Char),
      H = (gs1 ++ List.replicate (8 - (gs1.length + gs2.length)) [] ++ gs2).map
        padStart4 ∧
      H.length = 8 ∧ (∀ h ∈ H, h.length = 4) ∧
      _ipv6Str2Buf128 (String.mk (joinColon gs1 ++ ':' :: ':' :: joinColon gs2)) =
        some (hexPairs H.flatten) ∧
      (hexPairs H.flatten).length = 16 := by
  have hx1 : ∀ g ∈ gs1, g ≠ [] ∧ ∀ c ∈ g, ¬(c = ':') :=
    fun g hg => ⟨(h1 g hg).1, fun c hc => hex_ne_colon ((h1 g hg).2.2 c hc)⟩
  have hx2 : ∀ g ∈ gs2, g ≠ [] ∧ ∀ c ∈ g, ¬(c = ':') :=
    fun g hg => ⟨(h2 g hg).1, fun c hc => hex_ne_colon ((h2 g hg).2.2 c hc)⟩
  have hprops : ∀ h ∈ (gs1 ++
      List.replicate (8 - (gs1.length + gs2.length)) [] ++ gs2).map padStart4,
      h.length = 4 ∧ ∀ c ∈ h, isHexDigitJS c = true := by
    intro h hh
    obtain ⟨g, hg, rfl⟩ := List.mem_map.mp hh
    have hg4 : g.length ≤ 4 ∧ ∀ c ∈ g, isHexDigitJS c = true := by
      rcases List.mem_append.mp hg with hgl | hg2
      · rcases List.mem_append.mp hgl with hg1 | hgr
        · exact ⟨(h1 g hg1).2.1, (h1 g hg1).2.2⟩
        · rw [List.eq_of_mem_replicate hgr]
          exact ⟨by decide, by simp⟩
      · exact ⟨(h2 g hg2).2.1, (h2 g hg2).2.2⟩
    constructor
    · simp only [padStart4, List.length_append, List.length_replicate]
      omega
    · intro c hc
      rcases List.mem_append.mp hc with hrep | hcg
      · rw [List.eq_of_mem_replicate hrep]
        decide
      · exact hg4.2 c hcg
  have hlen8 : ((gs1 ++ List.replicate (8 - (gs1.length + gs2.length)) []
      ++ gs2).map padStart4).length = 8 := by
    simp only [List.length_map, List.length_append, List.length_replicate,
      List.length_cons] at hcc ⊢
    omega
  have hfh := ipv6FromHextets_of_hex8 _ hlen8 hprops
  refine ⟨_, rfl, hlen8, fun h hh => (hprops h hh).1, ?_, hfh.2⟩
  have hcnt := countColon_input gs1 gs2 (fun g hg => (hx1 g hg).2)
    (fun g hg => (hx2 g hg).2)
  simp only [_ipv6Str2Buf128]
  rw [hcnt, if_neg (by omega), ipv6Expand_eq gs1 gs2 hx1 hx2 hcc, hfh.1]

/-- General IPv4-mapped form: whenever the hextets of a
`gs1 ++ "::" ++ gs2 ++ [f, d]` address end in a dotted quad `d`
preceded by `f` upper-casing to `"FFFF"`, the result is 10 zero bytes,
`0xFF 0xFF`, then the 4 IPv4 bytes of `d` — whatever the earlier
groups hold. -/
theorem ipv6_mapped_general (gs1 gs2 : List (List Char)) (f d : List Char)
    (h1 : ∀ g ∈ gs1, g ≠ [] ∧ ∀ c ∈ g, ¬(c = ':'))
    (h2 : ∀ g ∈ gs2 ++ [f, d], g ≠ [] ∧ ∀ c ∈ g, ¬(c = ':'))
    (hcc : gs1.length - 1 + ((gs2 ++ [f, d]).length - 1) + 2 ≤ 7)
    (hf : f.map Char.toUpper = ['F', 'F', 'F', 'F'])
    (hd4 : 4 ≤ d.length) (hdot : (splitOnChar '.' d).length = 4) :
    _ipv6Str2Buf128 (String.mk
        (joinColon gs1 ++ ':' :: ':' :: joinColon (gs2 ++ [f, d]))) =
      some (List.replicate 10 0 ++ [0xFF, 0xFF] ++ ipv4Bytes d) ∧
    (ipv4Bytes d).length = 4 := by
  have hpadf : padStart4 f = f := by
    have hf4 : f.length = 4 := by
      have := congrArg List.length hf
      simpa using this
    simp [padStart4, hf4]
  have hpadd : padStart4 d = d := by
    simp [padStart4, Nat.sub_eq_zero_of_le hd4]
  constructor
  · have hcnt := countColon_input gs1 (gs2 ++ [f, d])
      (fun g hg => (h1 g hg).2) (fun g hg => (h2 g hg).2)
    simp only [_ipv6Str2Buf128]
    rw [hcnt, if_neg (by omega), ipv6Expand_eq gs1 (gs2 ++ [f, d]) h1 h2 hcc]
    have hreshape : (gs1 ++
        List.replicate (8 - (gs1.length + (gs2 ++ [f, d]).length)) []
        ++ (gs2 ++ [f, d])).map padStart4 =
        ((gs1 ++ List.replicate (8 - (gs1.length + (gs2 ++ [f, d]).length)) []
          ++ gs2).map padStart4) ++ [padStart4 f, padStart4 d] := by
      simp [List.map_append, List.append_assoc]
    rw [hreshape, hpadf, hpadd, ipv6FromHextets_mapped _ f d hdot hf]
    rfl
  · simp [ipv4Bytes, hdot]

/-- C6 counterexample: `"::1:2:3:4:5:6:7"` is a well-formed IPv6
address with a single `"::"` (one compressed zero group and seven
explicit groups), yet the code returns no 16-byte sequence there: it
has 8 colons, so `":".repeat(7 - 8)` throws a `RangeError` (`none`);
likewise for `"1:2:3:4:5:6:7::"`. -/
theorem ipv6_rangeError_on_eight_colons :
    _ipv6Str2Buf128 "::1:2:3:4:5:6:7" = none ∧
    _ipv6Str2Buf128 "1:2:3:4:5:6:7::" = none := by decide

/-- C6 (amended): restricted to inputs whose colon count is at most 7
(beyond that the code throws a `RangeError` instead of producing
bytes), `_ipv6Str2Buf128` expands the single `"::"` of
`gs1 ++ "::" ++ gs2` to exactly 8 groups, left-pads every group to 4
hex digits and returns the 16 bytes decoding them; when the final
group is a dotted IPv4 address and the group before it is `"ffff"` in
any letter case, it returns the IPv4-mapped form: 10 zero bytes, then
`0xFF 0xFF`, then the 4 IPv4 bytes.  In particular `"::1"` gives 15
zero bytes then 1, and `"::ffff:192.168.1.1"` (in any case of `ffff`)
gives 10 zero bytes, `0xFF 0xFF`, `192 168 1 1`. -/
theorem ipv6_spec_amended :
    (∀ gs1 gs2 : List (List Char),
      (∀ g ∈ gs1, g ≠ [] ∧ g.length ≤ 4 ∧ ∀ c ∈ g, isHexDigitJS c = true) →
      (∀ g ∈ gs2, g ≠ [] ∧ g.length ≤ 4 ∧ ∀ c ∈ g, isHexDigitJS c = true) →
      gs1.length - 1 + (gs2.length - 1) + 2 ≤ 7 →
      ∃ H : List (List Char),
        H = (gs1 ++ List.replicate (8 - (gs1.length + gs2.length)) [] ++ gs2).map
          padStart4 ∧
        H.length = 8 ∧ (∀ h ∈ H, h.length = 4) ∧
        _ipv6Str2Buf128
            (String.mk (joinColon gs1 ++ ':' :: ':' :: joinColon gs2)) =
          some (hexPairs H.flatten) ∧
        (hexPairs H.flatten).length = 16) ∧
    (∀ (gs1 gs2 : List (List Char)) (f d : List Char),
      (∀ g ∈ gs1, g ≠ [] ∧ ∀ c ∈ g, ¬(c = ':')) →
      (∀ g ∈ gs2 ++ [f, d], g ≠ [] ∧ ∀ c ∈ g, ¬(c = ':')) →
      gs1.length - 1 + ((gs2 ++ [f, d]).length - 1) + 2 ≤ 7 →
      f.map Char.toUpper = ['F', 'F', 'F', 'F'] →
      4 ≤ d.length → (splitOnChar '.' d).length = 4 →
      _ipv6Str2Buf128 (String.mk
          (joinColon gs1 ++ ':' :: ':' :: joinColon (gs2 ++ [f, d]))) =
        some (List.replicate 10 0 ++ [0xFF, 0xFF] ++ ipv4Bytes d) ∧
      (ipv4Bytes d).length = 4) ∧
    _ipv6Str2Buf128 "::1" = some (List.replicate 15 0 ++ [1]) ∧
    _ipv6Str2Buf128 "::ffff:192.168.1.1" =
      some (List.replicate 10 0 ++ [0xFF, 0xFF, 192, 168, 1, 1]) ∧
    _ipv6Str2Buf128 "::FFFF:192.168.1.1" =
      some (List.replicate 10 0 ++ [0xFF, 0xFF, 192, 168, 1, 1]) ∧
    _ipv6Str2Buf128 "::fFfF:192.168.1.1" =
      some (List.replicate 10 0 ++ [0xFF, 0xFF, 192, 168, 1, 1]) :=
  ⟨ipv6_regular_general, ipv6_mapped_general,
    by decide, by decide, by decide, by decide⟩

/-- Witness for C6: the regular clause at `"1::2"`
(`gs1 = ["1"], gs2 = ["2"]`) and the mapped clause at
`"::ffff:10.0.0.1"`, a different IPv4 address than the spec example. -/
theorem ipv6_spec_amended_witness :
    (∃ H : List (List Char),
      H = ([['1']] ++
        List.replicate (8 - ([['1']].length + [['2']].length)) [] ++
        [['2']]).map padStart4 ∧
      H.length = 8 ∧ (∀ h ∈ H, h.length = 4) ∧
      _ipv6Str2Buf128
          (String.mk (joinColon [['1']] ++ ':' :: ':' :: joinColon [['2']])) =
        some (hexPairs H.flatten) ∧
      (hexPairs H.flatten).length = 16) ∧
    (_ipv6Str2Buf128 (String.mk (joinColon [] ++ ':' :: ':' ::
        joinColon ([] ++ [['f', 'f', 'f', 'f'],
          ['1', '0', '.', '0', '.', '0', '.', '1']]))) =
      some (List.replicate 10 0 ++ [0xFF, 0xFF] ++
        ipv4Bytes ['1', '0', '.', '0', '.', '0', '.', '1']) ∧
     (ipv4Bytes ['1', '0', '.', '0', '.', '0', '.', '1']).length = 4) :=
  ⟨ipv6_spec_amended.1 [['1']] [['2']] (by decide) (by decide) (by decide),
   ipv6_spec_amended.2.1 [] [] ['f', 'f', 'f', 'f']
     ['1', '0', '.', '0', '.', '0', '.', '1']
     (by decide) (by decide) (by decide) (by decide) (by decide) (by decide)⟩

example : _int2Buf16 (-1) = [255, 255] := by decide
example : _getBit [8] 0 3 = 1 := by decide
example : _getBit [8] 0 0 = 0 := by decide
example : _getBit [255] 0 8 = 0 := by decide
example : _getBit [255] 1 0 = 0 := by decide
example : _compareBuf (JSVal.buffer [1, 2]) (JSVal.buffer [1, 2]) = true := by decide
example : _compareBuf (JSVal.buffer [1, 2]) (JSVal.buffer [1, 3]) = false := by decide
example : _compareBuf (JSVal.str "x") (JSVal.str "x") = false := by decide
example : _ipv4Str2Buf32 "192.168.1.1" = [192, 168, 1, 1] := by decide
example : _ipv4Str2Buf32 "256.1.1.1" = [0, 1, 1, 1] := by decide
example : _ipv4Str2Buf32 "1.2.3" = [1, 2, 3] := by decide
example : _ipv6Str2Buf128 "::1" = some (List.replicate 15 0 ++ [1]) := by decide
example : _ipv6Str2Buf128 "::1:2:3:4:5:6:7" = none := by decide
example : _ipv6Str2Buf128 "1.2.3.4" = none := by decide
example : _ipv6Str2Buf128 "::ffff:192.168.1.1" =
    some (List.replicate 10 0 ++ [0xFF, 0xFF, 192, 168, 1, 1]) := by decide
